import Mathlib

/-!
Shallow embedding of the coio-rs core (scheduler.rs, net/mod.rs, sync/spinlock.rs)
and proofs about the claims of its specification.

Machine integers (`usize` bitmasks of mio's `EventSet`) are embedded as `Nat`
with explicit bitwise operations; coroutine `Handle`s are abstracted as `Nat`
identifiers (a Handle is an opaque owning pointer — only its identity matters
to the properties proved here).
-/

namespace Coio

/-! ### mio `EventSet`, a `usize` bitmask

`EventSet::contains` is `(self.bits & other.bits) == other.bits`,
`insert` is `bits |= other.bits`, `remove` is `bits &= !other.bits`
(bitwise negation on a 64-bit `usize`). -/

def usizeMax : Nat := 2 ^ 64 - 1

def esContains (a b : Nat) : Bool := a &&& b == b

def esInsert (a b : Nat) : Nat := a ||| b

def esRemove (a b : Nat) : Nat := a &&& (usizeMax ^^^ b)

def esNone : Nat := 0

/-- `ReadyType` from scheduler.rs: Readable = 0, Writable = 1, Error = 2, Hup = 3. -/
abbrev ReadyType := Fin 4

/-- `impl Into<EventSet> for ReadyType`: `1usize << self as usize`. -/
def readyTypeBit (k : ReadyType) : Nat := 1 <<< k.val

/-- Coroutine handles, abstracted to their identity. -/
abbrev Handle := Nat

/-! ### ReadyStates (scheduler.rs lines 129-189)

`ReadyStates(Arc<Spinlock<(EventSet, [Option<Handle>; 4])>>)`: a 4-bit
readiness mask plus one waiter slot per readiness kind. -/

structure ReadyStates where
  mask : Nat
  slots : Fin 4 → Option Handle

namespace ReadyStates

/-- `ReadyStates::new`: empty mask, all four waiter slots empty. -/
def new : ReadyStates := ⟨esNone, fun _ => none⟩

/-- `ReadyStates::wait(ready_type)` run without interference between the
first mask check and the `park_with` callback (the "next call to wait"
semantics of a sequential caller).  Returns the new cell state and whether
`park_with` was called.  In the code: under the spinlock, if the mask
contains the bit, remove it and return; otherwise park, and the callback
re-checks the (unchanged) mask and installs the coroutine in the slot. -/
def wait (s : ReadyStates) (k : ReadyType) (coro : Handle) : ReadyStates × Bool :=
  if esContains s.mask (readyTypeBit k) then
    ({ s with mask := esRemove s.mask (readyTypeBit k) }, false)
  else
    ({ s with slots := fun j => if j = k then some coro else s.slots j }, true)

/-- `ReadyStates::make_ready(ready_type)`: `self.0.lock().0.insert(ready_type.into())`. -/
def make_ready (s : ReadyStates) (k : ReadyType) : ReadyStates :=
  { s with mask := esInsert s.mask (readyTypeBit k) }

/-- One iteration of the `for i in 0..4` loop in `ReadyStates::notify`:
if the event bit `i` is present, take the waiter slot when occupied
(producing its Handle) else set the mask bit. -/
def notifyStep (ev : Nat) (s : ReadyStates) (i : Fin 4) : ReadyStates × Option Handle :=
  if esContains ev (readyTypeBit i) then
    match s.slots i with
    | some coro => ({ s with slots := fun j => if j = i then none else s.slots j }, some coro)
    | none => ({ s with mask := esInsert s.mask (readyTypeBit i) }, none)
  else (s, none)

/-- The loop of `ReadyStates::notify` over a list of bit indices, collecting
the produced handles in order. -/
def notifyGo (ev : Nat) : ReadyStates → List (Fin 4) → ReadyStates × List Handle
  | s, [] => (s, [])
  | s, i :: rest =>
    ((notifyGo ev (notifyStep ev s i).1 rest).1,
      (notifyStep ev s i).2.toList ++ (notifyGo ev (notifyStep ev s i).1 rest).2)

/-- `ReadyStates::notify(event_set, handles)`: iterate `i = 0, 1, 2, 3`;
the returned list holds the handles written into `handles[..handle_count]`,
in the order the loop produced them. -/
def notify (s : ReadyStates) (ev : Nat) : ReadyStates × List Handle :=
  notifyGo ev s [0, 1, 2, 3]

end ReadyStates

/-! ### Fine-grained operations on a ReadyStates cell

`wait` holds the spinlock twice: once for the fast-path check, and once
inside the `park_with` callback.  A concurrent `notify` or `make_ready` can
interleave between the two.  Each constructor below is one critical section. -/

inductive ReadyOp
  | makeReadyOp (k : ReadyType)
  | notifyOp (events : Nat)
  /-- The fast-path check of `wait`: consume the bit if set, else no state
  change (the caller will park). -/
  | waitCheckOp (k : ReadyType)
  /-- The `park_with` callback of `wait`: re-check the mask; if the bit is
  now set, consume it (the coroutine is requeued as ready), else install
  the coroutine in the `k` waiter slot. -/
  | parkCallbackOp (k : ReadyType) (coro : Handle)

def applyReadyOp (s : ReadyStates) : ReadyOp → ReadyStates
  | .makeReadyOp k => s.make_ready k
  | .notifyOp ev => (s.notify ev).1
  | .waitCheckOp k =>
    if esContains s.mask (readyTypeBit k) then
      { s with mask := esRemove s.mask (readyTypeBit k) }
    else s
  | .parkCallbackOp k coro =>
    if esContains s.mask (readyTypeBit k) then
      { s with mask := esRemove s.mask (readyTypeBit k) }
    else
      { s with slots := fun j => if j = k then some coro else s.slots j }

def runReadyOps (ops : List ReadyOp) : ReadyStates :=
  ops.foldl applyReadyOp ReadyStates.new

/-- Invariant (i) of the spec: a waiter slot is non-empty only if the
corresponding mask bit is clear. -/
def SlotMaskInv (s : ReadyStates) : Prop :=
  ∀ k : Fin 4, (s.slots k).isSome → esContains s.mask (readyTypeBit k) = false

instance (s : ReadyStates) : Decidable (SlotMaskInv s) := by
  unfold SlotMaskInv; infer_instance

/-! ### Spinlock backoff (sync/spinlock.rs lines 36-93) -/

def BACKOFF_BASE : Nat := 1 <<< 4

def BACKOFF_CEILING : Nat := 1 <<< 12

/-- `backoff <<= (backoff != BACKOFF_CEILING) as usize`. -/
def nextBackoff (b : Nat) : Nat := b <<< (if b != BACKOFF_CEILING then 1 else 0)

/-- Pause count executed on the `(n+1)`-th consecutive failed CAS attempt in
`Spinlock::lock`: starts at `BACKOFF_BASE`, updated by `nextBackoff` after
each failed attempt. -/
def backoffOnAttempt : Nat → Nat
  | 0 => BACKOFF_BASE
  | n + 1 => nextBackoff (backoffOnAttempt n)

/-! ### Scheduler unpark policy (scheduler.rs lines 548-652) -/

/-- Modelled from the spec: `processor::QUEUE_SIZE`, the fixed capacity of a
worker's local runqueue, lives in runtime/processor.rs which is not part of
the sources; the spec says it is "typically 256". -/
def QUEUE_SIZE : Nat := 256

/-- `Scheduler::unpark_processor_maybe(max)`: returns the number of
`notify_one` calls issued (workers woken). -/
def unpark_processor_maybe (idle spinning mx : Nat) : Nat :=
  if mx > 0 && idle > 0 && spinning == 0 then
    if idle < mx then idle else mx
  else 0

/-- `Scheduler::unpark_processors_with_queue_size(size)`. -/
def unpark_processors_with_queue_size (idle spinning size : Nat) : Nat :=
  unpark_processor_maybe idle spinning (size / (QUEUE_SIZE / 2) + 1)

/-- `Scheduler::push_global_queue(hdl)`: push at the back, read the new
length, then unpark.  Returns the new queue and the number of workers woken. -/
def push_global_queue (queue : List Handle) (hdl : Handle) (idle spinning : Nat) :
    List Handle × Nat :=
  let q := queue ++ [hdl]
  (q, unpark_processors_with_queue_size idle spinning q.length)

/-! ### Reactor channel spin-send (scheduler.rs register/deregister/sleep_ms) -/

/-- Outcome of one `channel.send(msg)` attempt.  `fullAgain` is
`Err(NotifyError::Full(m))` — the channel hands the very message back and the
loop re-sends it; anything else ends the loop. -/
inductive SendOutcome
  | accepted
  | fullAgain
  | otherFailure
deriving DecidableEq

/-- The send loop of `register` / `deregister` / `sleep_ms`:
`while let Err(NotifyError::Full(m)) = channel.send(msg) { msg = m }`.
The argument list gives the channel's outcome for each successive attempt;
the result is `(message at the final attempt, number of attempts, final
outcome)`, or `none` when the outcome sequence is exhausted while still
looping. -/
def spinSend (msg : Nat) : List SendOutcome → Option (Nat × Nat × SendOutcome)
  | [] => none
  | .fullAgain :: rest => (spinSend msg rest).map fun r => (r.1, r.2.1 + 1, r.2.2)
  | .accepted :: _ => some (msg, 1, .accepted)
  | .otherFailure :: _ => some (msg, 1, .otherFailure)

/-! ### Timer message processing (scheduler.rs lines 722-733, 510-530)

`TimerError` is abstracted to a `Nat` code; the `*mut Result<(), TimerError>`
slot is an `Except Nat Unit`. -/

/-- `Handler::notify(Message::Timer(msg))`: `event_loop.timeout_ms(token, delay)`
either succeeds (the timer wheel now owns the coroutine, the result slot is
untouched) or fails with `err` (write `Err(err)` into the slot and push the
coroutine onto `io_handler_queue`).  Returns `(result slot, io_handler_queue,
handle owned by the timer wheel)`. -/
def handleTimerMessage (coro : Handle) (slot : Except Nat Unit) (queue : List Handle)
    (timeoutResult : Except Nat Unit) : Except Nat Unit × List Handle × Option Handle :=
  match timeoutResult with
  | .ok _ => (slot, queue, some coro)
  | .error e => (.error e, queue ++ [coro], none)

/-- `Scheduler::sleep_ms`: `let mut ret = Ok(());` then park and send the
Timer message; the value returned to the caller is the slot after the
reactor processed the message. -/
def sleep_ms (coro : Handle) (queue : List Handle) (timeoutResult : Except Nat Unit) :
    Except Nat Unit :=
  (handleTimerMessage coro (.ok ()) queue timeoutResult).1

/-! ### Operations outside a Processor context -/

/-- How a call ends: a value, an `io::Error` handed to the caller, or a
thread panic (`unwrap` / `expect`). -/
inductive CallOutcome (α : Type)
  | ok (a : α)
  | ioError (msg : String)
  | panicked (msg : String)
deriving DecidableEq

/-- `Scheduler::instance_or_err()`: `Ok` when a Processor is current,
otherwise `Err(io::Error::new(Other, "Scheduler missing"))`. -/
def instance_or_err (cur : Option Unit) : CallOutcome Unit :=
  match cur with
  | some _ => .ok ()
  | none => .ioError "Scheduler missing"

/-- `GenericEvented::new(inner, interest)`: `try!(Scheduler::instance_or_err())`
then `try!(scheduler.register(..))` (modelled by its result). -/
def genericEventedNew (cur : Option Unit) (registerResult : Except String Nat) :
    CallOutcome Nat :=
  match instance_or_err cur with
  | .ioError m => .ioError m
  | .panicked m => .panicked m
  | .ok _ =>
    match registerResult with
    | .ok token => .ok token
    | .error m => .ioError m

/-- `Scheduler::spawn(f)`: `Scheduler::instance().unwrap()` — with no current
Processor, `instance()` is `None` and `unwrap` panics. -/
def spawnCall (cur : Option Unit) : CallOutcome Unit :=
  match cur with
  | some _ => .ok ()
  | none => .panicked "called Option::unwrap() on a None value"

/-- `ReadyStates::wait` when the mask bit is not latched:
`Processor::current().expect("cannot wait without processor")` — panics with
no current Processor.  With the bit latched it returns without needing one. -/
def waitCall (cur : Option Unit) (latched : Bool) : CallOutcome Unit :=
  if latched then .ok ()
  else
    match cur with
    | some _ => .ok ()
    | none => .panicked "cannot wait without processor"

/-- What `Scheduler::sched()` does. -/
inductive SchedEffect
  | processorSched
  | threadYield
deriving DecidableEq

/-- `Scheduler::sched()`: `match Processor::current() { Some(p) => p.sched(),
None => thread::yield_now() }`. -/
def sched (cur : Option Unit) : CallOutcome SchedEffect :=
  match cur with
  | some _ => .ok .processorSched
  | none => .ok .threadYield

/-! ### GenericEvented read/write/flush loop and SyncGuard (net/mod.rs) -/

/-- Result of one attempt of the underlying non-blocking call
(`self.inner.read/write/flush`). -/
inductive IoAttempt
  | ok (n : Nat)
  | wouldBlock
  | notConnected
  | fatal (e : Nat)
deriving DecidableEq

/-- The loop shared by `read`, `write` and `flush` on a `GenericEvented`,
with the `SyncGuard` state threaded through: on `Ok` or a fatal error the
function returns with the guard in its current armed state; on
`WouldBlock`/`NotConnected` it calls `ready_states.wait(..)` and then
`sync_guard.disarm()`.  The list supplies successive attempt results;
`none` means the attempts were exhausted while still looping.  The returned
`Bool` is the guard's armed flag at the `return`. -/
def ioLoop : List IoAttempt → Bool → Option (Except Nat Nat × Bool)
  | [], _ => none
  | .ok n :: _, armed => some (.ok n, armed)
  | .fatal e :: _, armed => some (.error e, armed)
  | .wouldBlock :: rest, _ => ioLoop rest false
  | .notConnected :: rest, _ => ioLoop rest false

/-- A read/write/flush call: `let mut sync_guard = SyncGuard::new();` (armed)
then the loop. -/
def genericEventedOp (attempts : List IoAttempt) : Option (Except Nat Nat × Bool) :=
  ioLoop attempts true

/-- `impl Drop for SyncGuard`: `if self.0 { Scheduler::sched(); }` — returns
whether `sched()` is called. -/
def syncGuardDropCallsSched (armed : Bool) : Bool := armed

/-! ## Lemmas about the EventSet bitmask -/

lemma readyTypeBit_eq (k : ReadyType) : readyTypeBit k = 2 ^ k.val :=
  Nat.one_shiftLeft _

lemma esContains_bit (a : Nat) (k : ReadyType) :
    esContains a (readyTypeBit k) = a.testBit k.val := by
  rw [esContains, readyTypeBit_eq, Nat.and_two_pow]
  cases h : a.testBit k.val
  · have hne : (0 : Nat) ≠ 2 ^ k.val := (Nat.two_pow_pos k.val).ne
    simp [hne]
  · simp

lemma testBit_esInsert (a : Nat) (k : ReadyType) (j : Nat) :
    (esInsert a (readyTypeBit k)).testBit j = (a.testBit j || decide (k.val = j)) := by
  rw [esInsert, readyTypeBit_eq, Nat.testBit_or, Nat.testBit_two_pow]

lemma testBit_esRemove (a : Nat) (k : ReadyType) (j : Nat) (hj : j < 64) :
    (esRemove a (readyTypeBit k)).testBit j = (a.testBit j && !decide (k.val = j)) := by
  rw [esRemove, usizeMax, readyTypeBit_eq, Nat.testBit_and, Nat.testBit_xor,
    Nat.testBit_two_pow_sub_one, Nat.testBit_two_pow]
  simp [hj]

lemma esContains_esInsert_bit (a : Nat) (k j : ReadyType) :
    esContains (esInsert a (readyTypeBit k)) (readyTypeBit j)
      = (esContains a (readyTypeBit j) || decide (k = j)) := by
  rw [esContains_bit, esContains_bit, testBit_esInsert]
  simp [Fin.val_eq_val]

lemma esContains_esInsert_self (a : Nat) (k : ReadyType) :
    esContains (esInsert a (readyTypeBit k)) (readyTypeBit k) = true := by
  rw [esContains_esInsert_bit]; simp

lemma esContains_esRemove_bit (a : Nat) (k j : ReadyType) :
    esContains (esRemove a (readyTypeBit k)) (readyTypeBit j)
      = (esContains a (readyTypeBit j) && !decide (k = j)) := by
  rw [esContains_bit, esContains_bit,
    testBit_esRemove _ _ _ (Nat.lt_of_lt_of_le j.isLt (by norm_num))]
  simp [Fin.val_eq_val]

lemma esContains_esRemove_self (a : Nat) (k : ReadyType) :
    esContains (esRemove a (readyTypeBit k)) (readyTypeBit k) = false := by
  rw [esContains_esRemove_bit]; simp

/-! ## Spinlock backoff lemmas -/

lemma nextBackoff_eq (b : Nat) : nextBackoff b = if b = 4096 then b else b * 2 := by
  rw [nextBackoff, BACKOFF_CEILING]
  rcases eq_or_ne b 4096 with h | h
  · simp [h]
  · have hb : (b != 1 <<< 12) = true := by
      simpa using h
    rw [hb, if_neg h]
    simp [Nat.shiftLeft_eq]

lemma backoffOnAttempt_eq (n : Nat) : backoffOnAttempt n = min (16 * 2 ^ n) 4096 := by
  induction n with
  | zero => decide
  | succ n ih =>
    rw [backoffOnAttempt, ih, nextBackoff_eq]
    rcases Nat.lt_or_ge n 8 with h | h
    · have h2 : 2 ^ n ≤ 2 ^ 7 := Nat.pow_le_pow_right (by norm_num) (by omega)
      have h3 : (2 : Nat) ^ 7 = 128 := by norm_num
      have hmin : min (16 * 2 ^ n) 4096 = 16 * 2 ^ n := by omega
      rw [pow_succ, hmin, if_neg (by omega : ¬16 * 2 ^ n = 4096)]
      omega
    · have h2 : 2 ^ 8 ≤ 2 ^ n := Nat.pow_le_pow_right (by norm_num) h
      have h3 : (2 : Nat) ^ 8 = 256 := by norm_num
      have hmin : min (16 * 2 ^ n) 4096 = 4096 := by omega
      rw [pow_succ, hmin, if_pos rfl]
      omega

/-! ## Unpark policy lemmas -/

lemma unpark_processor_maybe_eq (idle spinning mx : Nat) :
    unpark_processor_maybe idle spinning mx =
      if 0 < mx ∧ 0 < idle ∧ spinning = 0 then min idle mx else 0 := by
  unfold unpark_processor_maybe
  by_cases h1 : 0 < mx <;> by_cases h2 : 0 < idle <;> by_cases h3 : spinning = 0 <;>
    simp [h1, h2, h3] <;> split <;> omega

/-! ## SyncGuard loop lemma -/

lemma ioLoop_disarmed_stays (attempts : List IoAttempt) :
    ((ioLoop attempts false).all fun r => !r.2) = true := by
  induction attempts with
  | nil => rfl
  | cons a rest ih =>
    cases a with
    | ok n => rfl
    | fatal e => rfl
    | wouldBlock => simpa [ioLoop] using ih
    | notConnected => simpa [ioLoop] using ih

/-! ## Claim theorems (C4, C5, C6, C7, C8, C9, C10) -/

/-- C9: in `Spinlock::lock`, the busy-wait pause count of the `n`-th
consecutive failed acquisition attempt equals `min (16 * 2 ^ (n - 1)) 4096`:
it starts at `BACKOFF_BASE = 16`, doubles after each failed attempt, and is
capped at `BACKOFF_CEILING = 4096`. -/
theorem spinlock_backoff_on_nth_attempt (n : Nat) (_h : 1 ≤ n) :
    backoffOnAttempt (n - 1) = min (16 * 2 ^ (n - 1)) 4096 :=
  backoffOnAttempt_eq (n - 1)

theorem spinlock_backoff_on_nth_attempt_witness :
    1 ≤ 10 ∧ backoffOnAttempt (10 - 1) = min (16 * 2 ^ (10 - 1)) 4096 :=
  ⟨by decide, spinlock_backoff_on_nth_attempt 10 (by decide)⟩

/-- C10: `Scheduler::sched()` on a thread with no current Processor does not
panic and does not suspend a coroutine: it yields the OS thread
(`thread::yield_now()`) and returns. -/
theorem sched_without_processor_yields_thread :
    sched none = CallOutcome.ok SchedEffect.threadYield := rfl

/-- C5: `push_global_queue` enqueues at the back and then wakes exactly
`min idle (s / (QUEUE_SIZE / 2) + 1)` workers (where `s` is the new queue
size) when some worker is idle and none is spinning, and wakes none at all
when no worker is idle or some worker is spinning. -/
theorem push_global_queue_unpark_policy (queue : List Handle) (hdl : Handle)
    (idle spinning : Nat) :
    (push_global_queue queue hdl idle spinning).1.length = queue.length + 1 ∧
    (0 < idle → spinning = 0 →
      (push_global_queue queue hdl idle spinning).2
        = min idle ((queue.length + 1) / (QUEUE_SIZE / 2) + 1)) ∧
    (idle = 0 ∨ 0 < spinning → (push_global_queue queue hdl idle spinning).2 = 0) := by
  refine ⟨by simp [push_global_queue], ?_, ?_⟩
  · intro hi hs
    simp only [push_global_queue, unpark_processors_with_queue_size,
      unpark_processor_maybe_eq, List.length_append, List.length_cons, List.length_nil]
    rw [if_pos ⟨Nat.succ_pos _, hi, hs⟩]
  · intro hor
    simp only [push_global_queue, unpark_processors_with_queue_size,
      unpark_processor_maybe_eq]
    rw [if_neg]
    rintro ⟨-, h2, h3⟩
    omega

theorem push_global_queue_unpark_policy_witness :
    0 < 2 ∧ (0 : Nat) = 0 ∧
    (push_global_queue [1, 2] 3 2 0).2 = min 2 (([1, 2].length + 1) / (QUEUE_SIZE / 2) + 1) ∧
    (push_global_queue [1, 2] 3 0 1).2 = 0 :=
  ⟨by decide, rfl,
    (push_global_queue_unpark_policy [1, 2] 3 2 0).2.1 (by decide) rfl,
    (push_global_queue_unpark_policy [1, 2] 3 0 1).2.2 (Or.inl rfl)⟩

/-- C6: the reactor-channel send loop re-sends the same message while the
channel answers `Full` and terminates at the first answer that is not
`Full`: with `pre` consecutive `Full` answers followed by a non-`Full`
answer `r`, it makes exactly `pre.length + 1` attempts, delivers the
original message unchanged, and never inspects later answers. -/
theorem spin_send_retries_until_not_full (msg : Nat) (pre : List SendOutcome)
    (r : SendOutcome) (post : List SendOutcome)
    (hpre : ∀ x ∈ pre, x = SendOutcome.fullAgain) (hr : r ≠ SendOutcome.fullAgain) :
    spinSend msg (pre ++ r :: post) = some (msg, pre.length + 1, r) := by
  induction pre with
  | nil =>
    cases r with
    | accepted => rfl
    | fullAgain => exact absurd rfl hr
    | otherFailure => rfl
  | cons x xs ih =>
    have hx : x = SendOutcome.fullAgain := hpre x (by simp)
    subst hx
    rw [List.cons_append, spinSend, ih fun y hy => hpre y (by simp [hy])]
    rfl

theorem spin_send_retries_until_not_full_witness :
    (∀ x ∈ [SendOutcome.fullAgain, SendOutcome.fullAgain], x = SendOutcome.fullAgain) ∧
    SendOutcome.accepted ≠ SendOutcome.fullAgain ∧
    spinSend 42 ([SendOutcome.fullAgain, SendOutcome.fullAgain] ++
        SendOutcome.accepted :: [SendOutcome.fullAgain])
      = some (42, [SendOutcome.fullAgain, SendOutcome.fullAgain].length + 1,
          SendOutcome.accepted) :=
  ⟨by decide, by decide,
    spin_send_retries_until_not_full 42 _ _ _ (by decide) (by decide)⟩

/-- C7: for a `Message::Timer` processed by the reactor, a successful timer
installation leaves the coroutine owned by the timer wheel and the result
slot untouched, while a failed installation writes the timer error into the
slot and appends the coroutine to `io_handler_queue`; hence `sleep_ms`
returns `Ok(())` exactly when the registration succeeded and the
`TimerError` otherwise. -/
theorem timer_message_result (coro : Handle) (slot : Except Nat Unit)
    (queue : List Handle) :
    (handleTimerMessage coro slot queue (.ok ()) = (slot, queue, some coro)) ∧
    (∀ e, handleTimerMessage coro slot queue (.error e) = (.error e, queue ++ [coro], none)) ∧
    (sleep_ms coro queue (.ok ()) = .ok ()) ∧
    (∀ e, sleep_ms coro queue (.error e) = .error e) :=
  ⟨rfl, fun _ => rfl, rfl, fun _ => rfl⟩

/-- C8 counterexample: with no current Processor, `Scheduler::spawn` panics
(`unwrap()` of the `None` returned by `Scheduler::instance()`) rather than
surfacing the `SchedulerMissing` error to the caller, and `ReadyStates::wait`
on an unlatched bit panics via `expect`. -/
theorem spawn_outside_run_panics :
    spawnCall none = CallOutcome.panicked "called Option::unwrap() on a None value" ∧
    spawnCall none ≠ CallOutcome.ioError "Scheduler missing" ∧
    waitCall none false = CallOutcome.panicked "cannot wait without processor" ∧
    waitCall none false ≠ CallOutcome.ioError "Scheduler missing" :=
  ⟨rfl, by decide, rfl, by decide⟩

/-- C8 amended: outside `run`, `GenericEvented::new` (through
`Scheduler::instance_or_err`) surfaces the "Scheduler missing" error to the
caller, while `Scheduler::spawn` and `ReadyStates::wait` (on an unlatched
bit) panic instead of returning an error. -/
theorem scheduler_missing_outside_run (registerResult : Except String Nat) :
    genericEventedNew none registerResult = CallOutcome.ioError "Scheduler missing" ∧
    instance_or_err none = CallOutcome.ioError "Scheduler missing" ∧
    spawnCall none = CallOutcome.panicked "called Option::unwrap() on a None value" ∧
    waitCall none false = CallOutcome.panicked "cannot wait without processor" :=
  ⟨rfl, rfl, rfl, rfl⟩

/-- C4 counterexample: a read whose underlying non-blocking call succeeds on
the first attempt returns with the SyncGuard still armed — `disarm()` is
only reached after a `wait` — so the guard's drop calls `Scheduler::sched()`
instead of doing nothing. -/
theorem first_try_success_guard_armed :
    genericEventedOp [IoAttempt.ok 5] = some (Except.ok 5, true) ∧
    syncGuardDropCallsSched true = true :=
  ⟨rfl, rfl⟩

/-- C4 amended: if a read/write/flush returns successfully without ever
parking (first-attempt success), the guard is still armed at the return and
its drop performs one `sched()`; once the operation has waited at least
once, the guard is disarmed and stays disarmed at every later return, so
its drop does nothing. -/
theorem sync_guard_armed_iff_no_wait (n : Nat) (rest attempts : List IoAttempt) :
    genericEventedOp (IoAttempt.ok n :: rest) = some (Except.ok n, true) ∧
    syncGuardDropCallsSched true = true ∧
    ((ioLoop attempts false).all fun r => !r.2) = true ∧
    syncGuardDropCallsSched false = false :=
  ⟨rfl, rfl, ioLoop_disarmed_stays attempts, rfl⟩

/-! ## Lemmas about one step of `ReadyStates::notify` -/

lemma notifyStep_not_present (ev : Nat) (s : ReadyStates) (i : Fin 4)
    (h : esContains ev (readyTypeBit i) = false) :
    ReadyStates.notifyStep ev s i = (s, none) := by
  simp [ReadyStates.notifyStep, h]

lemma notifyStep_take (ev : Nat) (s : ReadyStates) (i : Fin 4) (c : Handle)
    (h : esContains ev (readyTypeBit i) = true) (hs : s.slots i = some c) :
    ReadyStates.notifyStep ev s i
      = ({ s with slots := fun j => if j = i then none else s.slots j }, some c) := by
  simp [ReadyStates.notifyStep, h, hs]

lemma notifyStep_insert (ev : Nat) (s : ReadyStates) (i : Fin 4)
    (h : esContains ev (readyTypeBit i) = true) (hs : s.slots i = none) :
    ReadyStates.notifyStep ev s i
      = ({ s with mask := esInsert s.mask (readyTypeBit i) }, none) := by
  simp [ReadyStates.notifyStep, h, hs]

lemma notifyStep_slots_ne (ev : Nat) (s : ReadyStates) (i j : Fin 4) (hj : j ≠ i) :
    (ReadyStates.notifyStep ev s i).1.slots j = s.slots j := by
  by_cases h : esContains ev (readyTypeBit i) = true
  · rcases hs : s.slots i with _ | c
    · rw [notifyStep_insert ev s i h hs]
    · rw [notifyStep_take ev s i c h hs]
      simp [hj]
  · rw [notifyStep_not_present ev s i (by simpa using h)]

lemma notifyStep_mask_bit (ev : Nat) (s : ReadyStates) (i j : Fin 4) (hj : j ≠ i) :
    esContains ((ReadyStates.notifyStep ev s i).1.mask) (readyTypeBit j)
      = esContains s.mask (readyTypeBit j) := by
  by_cases h : esContains ev (readyTypeBit i) = true
  · rcases hs : s.slots i with _ | c
    · rw [notifyStep_insert ev s i h hs]
      have hij : i ≠ j := Ne.symm hj
      simp [esContains_esInsert_bit, hij]
    · rw [notifyStep_take ev s i c h hs]
  · rw [notifyStep_not_present ev s i (by simpa using h)]

lemma notifyStep_mask_mono (ev : Nat) (s : ReadyStates) (i j : Fin 4)
    (h : esContains s.mask (readyTypeBit j) = true) :
    esContains ((ReadyStates.notifyStep ev s i).1.mask) (readyTypeBit j) = true := by
  by_cases hp : esContains ev (readyTypeBit i) = true
  · rcases hs : s.slots i with _ | c
    · rw [notifyStep_insert ev s i hp hs]
      simp [esContains_esInsert_bit, h]
    · rw [notifyStep_take ev s i c hp hs]
      exact h
  · rw [notifyStep_not_present ev s i (by simpa using hp)]
    exact h

lemma notifyStep_slots_none (ev : Nat) (s : ReadyStates) (i j : Fin 4)
    (h : s.slots j = none) : (ReadyStates.notifyStep ev s i).1.slots j = none := by
  by_cases hp : esContains ev (readyTypeBit i) = true
  · rcases hs : s.slots i with _ | c
    · rw [notifyStep_insert ev s i hp hs]
      exact h
    · rw [notifyStep_take ev s i c hp hs]
      by_cases hji : j = i
      · subst hji; simp
      · simp [hji, h]
  · rw [notifyStep_not_present ev s i (by simpa using hp)]
    exact h

/-! ## Lemmas about the full `notify` loop -/

lemma notifyGo_slots_not_mem (ev : Nat) :
    ∀ (l : List (Fin 4)) (s : ReadyStates) (j : Fin 4), j ∉ l →
      (ReadyStates.notifyGo ev s l).1.slots j = s.slots j := by
  intro l
  induction l with
  | nil => intro s j _; rfl
  | cons i rest ih =>
    intro s j hj
    have hji : j ≠ i := fun h => hj (by simp [h])
    have hrest : j ∉ rest := fun h => hj (by simp [h])
    simp only [ReadyStates.notifyGo]
    rw [ih _ j hrest, notifyStep_slots_ne ev s i j hji]

lemma notifyGo_mask_not_mem (ev : Nat) :
    ∀ (l : List (Fin 4)) (s : ReadyStates) (j : Fin 4), j ∉ l →
      esContains ((ReadyStates.notifyGo ev s l).1.mask) (readyTypeBit j)
        = esContains s.mask (readyTypeBit j) := by
  intro l
  induction l with
  | nil => intro s j _; rfl
  | cons i rest ih =>
    intro s j hj
    have hji : j ≠ i := fun h => hj (by simp [h])
    have hrest : j ∉ rest := fun h => hj (by simp [h])
    simp only [ReadyStates.notifyGo]
    rw [ih _ j hrest, notifyStep_mask_bit ev s i j hji]

lemma notifyGo_mask_mono (ev : Nat) :
    ∀ (l : List (Fin 4)) (s : ReadyStates) (j : Fin 4),
      esContains s.mask (readyTypeBit j) = true →
      esContains ((ReadyStates.notifyGo ev s l).1.mask) (readyTypeBit j) = true := by
  intro l
  induction l with
  | nil => intro s j h; exact h
  | cons i rest ih =>
    intro s j h
    simp only [ReadyStates.notifyGo]
    exact ih _ j (notifyStep_mask_mono ev s i j h)

lemma notifyGo_slots_none (ev : Nat) :
    ∀ (l : List (Fin 4)) (s : ReadyStates) (j : Fin 4), s.slots j = none →
      (ReadyStates.notifyGo ev s l).1.slots j = none := by
  intro l
  induction l with
  | nil => intro s j h; exact h
  | cons i rest ih =>
    intro s j h
    simp only [ReadyStates.notifyGo]
    exact ih _ j (notifyStep_slots_none ev s i j h)

lemma notifyGo_absent (ev : Nat) (j : Fin 4)
    (h : esContains ev (readyTypeBit j) = false) :
    ∀ (l : List (Fin 4)) (s : ReadyStates),
      (ReadyStates.notifyGo ev s l).1.slots j = s.slots j ∧
      esContains ((ReadyStates.notifyGo ev s l).1.mask) (readyTypeBit j)
        = esContains s.mask (readyTypeBit j) := by
  intro l
  induction l with
  | nil => intro s; exact ⟨rfl, rfl⟩
  | cons i rest ih =>
    intro s
    simp only [ReadyStates.notifyGo]
    by_cases hij : j = i
    · subst hij
      rw [notifyStep_not_present ev s j h]
      exact ih s
    · obtain ⟨a1, a2⟩ := ih (ReadyStates.notifyStep ev s i).1
      exact ⟨a1.trans (notifyStep_slots_ne ev s i j hij),
        a2.trans (notifyStep_mask_bit ev s i j hij)⟩

lemma notifyGo_take (ev : Nat) (j : Fin 4) (c : Handle)
    (hp : esContains ev (readyTypeBit j) = true) :
    ∀ (l : List (Fin 4)) (s : ReadyStates), l.Nodup → j ∈ l → s.slots j = some c →
      (ReadyStates.notifyGo ev s l).1.slots j = none ∧
      c ∈ (ReadyStates.notifyGo ev s l).2 ∧
      esContains ((ReadyStates.notifyGo ev s l).1.mask) (readyTypeBit j)
        = esContains s.mask (readyTypeBit j) := by
  intro l
  induction l with
  | nil => intro s _ hmem _; cases hmem
  | cons i rest ih =>
    intro s hnd hmem hs
    rcases List.nodup_cons.mp hnd with ⟨hni, hndr⟩
    simp only [ReadyStates.notifyGo]
    by_cases hij : j = i
    · subst hij
      rw [notifyStep_take ev s j c hp hs]
      refine ⟨?_, by simp, ?_⟩
      · rw [notifyGo_slots_not_mem ev rest _ j hni]
        simp
      · rw [notifyGo_mask_not_mem ev rest _ j hni]
    · have h1 : (ReadyStates.notifyStep ev s i).1.slots j = some c := by
        rw [notifyStep_slots_ne ev s i j hij]; exact hs
      obtain ⟨a1, a2, a3⟩ :=
        ih (ReadyStates.notifyStep ev s i).1 hndr ((List.mem_cons.mp hmem).resolve_left hij) h1
      exact ⟨a1, List.mem_append_right _ a2,
        a3.trans (notifyStep_mask_bit ev s i j hij)⟩

lemma notifyGo_latch (ev : Nat) (j : Fin 4)
    (hp : esContains ev (readyTypeBit j) = true) :
    ∀ (l : List (Fin 4)) (s : ReadyStates), j ∈ l → s.slots j = none →
      (ReadyStates.notifyGo ev s l).1.slots j = none ∧
      esContains ((ReadyStates.notifyGo ev s l).1.mask) (readyTypeBit j) = true := by
  intro l
  induction l with
  | nil => intro s hmem _; cases hmem
  | cons i rest ih =>
    intro s hmem hn
    simp only [ReadyStates.notifyGo]
    by_cases hij : j = i
    · subst hij
      rw [notifyStep_insert ev s j hp hn]
      refine ⟨notifyGo_slots_none ev rest _ j hn, ?_⟩
      exact notifyGo_mask_mono ev rest _ j (esContains_esInsert_self s.mask j)
    · have h1 : (ReadyStates.notifyStep ev s i).1.slots j = none :=
        notifyStep_slots_none ev s i j hn
      exact ih _ ((List.mem_cons.mp hmem).resolve_left hij) h1

lemma notifyGo_length (ev : Nat) :
    ∀ (l : List (Fin 4)) (s : ReadyStates), l.Nodup →
      (ReadyStates.notifyGo ev s l).2.length
        = l.countP fun i => esContains ev (readyTypeBit i) && (s.slots i).isSome := by
  intro l
  induction l with
  | nil => intro s _; rfl
  | cons i rest ih =>
    intro s hnd
    rcases List.nodup_cons.mp hnd with ⟨hni, hndr⟩
    simp only [ReadyStates.notifyGo, List.length_append, List.countP_cons]
    have hcong : rest.countP (fun x => esContains ev (readyTypeBit x) &&
          ((ReadyStates.notifyStep ev s i).1.slots x).isSome)
        = rest.countP fun x => esContains ev (readyTypeBit x) && (s.slots x).isSome := by
      apply List.countP_congr
      intro x hx
      rw [notifyStep_slots_ne ev s i x fun h => hni (h ▸ hx)]
    rw [ih _ hndr, hcong]
    have hstep : (ReadyStates.notifyStep ev s i).2.toList.length
        = if esContains ev (readyTypeBit i) && (s.slots i).isSome then 1 else 0 := by
      by_cases hp : esContains ev (readyTypeBit i) = true
      · rcases hs : s.slots i with _ | c
        · rw [notifyStep_insert ev s i hp hs]
          simp [hp, hs]
        · rw [notifyStep_take ev s i c hp hs]
          simp [hp, hs]
      · rw [notifyStep_not_present ev s i (by simpa using hp)]
        simp [by simpa using hp]
    rw [hstep]
    ring

lemma notifyStep_inv (ev : Nat) (s : ReadyStates) (i : Fin 4) (h : SlotMaskInv s) :
    SlotMaskInv (ReadyStates.notifyStep ev s i).1 := by
  by_cases hp : esContains ev (readyTypeBit i) = true
  · rcases hs : s.slots i with _ | c
    · rw [notifyStep_insert ev s i hp hs]
      intro j hj
      have hj2 : (s.slots j).isSome := hj
      have hij : i ≠ j := by
        rintro rfl
        rw [hs] at hj2
        simp at hj2
      show esContains (esInsert s.mask (readyTypeBit i)) (readyTypeBit j) = false
      rw [esContains_esInsert_bit]
      simp [h j hj2, hij]
    · rw [notifyStep_take ev s i c hp hs]
      intro j hj
      by_cases hji : j = i
      · subst hji
        simp at hj
      · have hj2 : (s.slots j).isSome := by
          simpa [hji] using hj
        exact h j hj2
  · rw [notifyStep_not_present ev s i (by simpa using hp)]
    exact h

lemma notifyGo_inv (ev : Nat) :
    ∀ (l : List (Fin 4)) (s : ReadyStates), SlotMaskInv s →
      SlotMaskInv (ReadyStates.notifyGo ev s l).1 := by
  intro l
  induction l with
  | nil => intro s h; exact h
  | cons i rest ih =>
    intro s h
    simp only [ReadyStates.notifyGo]
    exact ih _ (notifyStep_inv ev s i h)

/-! ## Claim theorems (C1, C2, C3) -/

/-- C1: if the readiness mask bit for `kind` is latched — by
`make_ready(kind)`, or by a `notify` whose event set carries that bit while
the waiter slot for it is empty — then the next `wait(kind)` on the same
ReadyStates returns immediately without calling `park_with`, consumes
(clears) that mask bit, and leaves the waiter slots untouched. -/
theorem latched_bit_wait_immediate (s : ReadyStates) (k : ReadyType) (coro : Handle)
    (ev : Nat) :
    esContains ((s.make_ready k).mask) (readyTypeBit k) = true ∧
    (esContains ev (readyTypeBit k) = true → s.slots k = none →
      esContains ((s.notify ev).1.mask) (readyTypeBit k) = true) ∧
    (esContains s.mask (readyTypeBit k) = true →
      (s.wait k coro).2 = false ∧
      esContains ((s.wait k coro).1.mask) (readyTypeBit k) = false ∧
      (s.wait k coro).1.slots = s.slots) := by
  refine ⟨esContains_esInsert_self s.mask k, ?_, ?_⟩
  · intro hp hn
    have hmem : k ∈ ([0, 1, 2, 3] : List (Fin 4)) := by
      fin_cases k <;> decide
    exact (notifyGo_latch ev k hp [0, 1, 2, 3] s hmem hn).2
  · intro h
    have e : s.wait k coro = ({ s with mask := esRemove s.mask (readyTypeBit k) }, false) := by
      unfold ReadyStates.wait
      rw [if_pos h]
    rw [e]
    exact ⟨rfl, esContains_esRemove_self s.mask k, rfl⟩

theorem latched_bit_wait_immediate_witness :
    esContains (1 : Nat) (readyTypeBit 0) = true ∧
    (ReadyStates.wait ⟨1, fun _ => none⟩ 0 9).2 = false ∧
    esContains ((ReadyStates.wait ⟨1, fun _ => none⟩ 0 9).1.mask) (readyTypeBit 0) = false :=
  ⟨by decide,
    ((latched_bit_wait_immediate ⟨1, fun _ => none⟩ 0 9 0).2.2 (by decide)).1,
    ((latched_bit_wait_immediate ⟨1, fun _ => none⟩ 0 9 0).2.2 (by decide)).2.1⟩

/-- C2 counterexample: from the fresh cell, park a waiter for Readable
(the `park_with` callback installs it, the mask being empty), then call
`make_ready(Readable)`: the mask bit is now set while the Readable waiter
slot is occupied, so the claimed invariant does not hold after every
operation. -/
theorem invariant_broken_by_make_ready :
    ¬ SlotMaskInv (runReadyOps [ReadyOp.parkCallbackOp 0 7, ReadyOp.makeReadyOp 0]) := by
  decide

/-- C2 amended: the invariant "a waiter slot for `k` is non-empty only if
the mask bit for `k` is clear" holds in the fresh cell and is preserved by
every `wait` critical section and by `notify`; `make_ready(k)` preserves it
provided the waiter slot for `k` is empty when it runs (which the
unconditional `make_ready` of the code does not itself guarantee). -/
theorem slot_mask_invariant_preserved :
    SlotMaskInv ReadyStates.new ∧
    ∀ (s : ReadyStates) (op : ReadyOp), SlotMaskInv s →
      (∀ k : ReadyType, op = ReadyOp.makeReadyOp k → s.slots k = none) →
      SlotMaskInv (applyReadyOp s op) := by
  constructor
  · intro k hk
    simp [ReadyStates.new] at hk
  · intro s op hinv hmk
    cases op with
    | makeReadyOp k =>
      intro j hj
      have hk : s.slots k = none := hmk k rfl
      have hj2 : (s.slots j).isSome := hj
      have hjk : k ≠ j := by
        rintro rfl
        rw [hk] at hj2
        simp at hj2
      show esContains (esInsert s.mask (readyTypeBit k)) (readyTypeBit j) = false
      rw [esContains_esInsert_bit]
      simp [hinv j hj2, hjk]
    | notifyOp ev => exact notifyGo_inv ev [0, 1, 2, 3] s hinv
    | waitCheckOp k =>
      by_cases hc : esContains s.mask (readyTypeBit k) = true
      · simp only [applyReadyOp, if_pos hc]
        intro j hj
        have hj2 : (s.slots j).isSome := hj
        show esContains (esRemove s.mask (readyTypeBit k)) (readyTypeBit j) = false
        rw [esContains_esRemove_bit]
        simp [hinv j hj2]
      · simp only [applyReadyOp, if_neg hc]
        exact hinv
    | parkCallbackOp k coro =>
      by_cases hc : esContains s.mask (readyTypeBit k) = true
      · simp only [applyReadyOp, if_pos hc]
        intro j hj
        have hj2 : (s.slots j).isSome := hj
        show esContains (esRemove s.mask (readyTypeBit k)) (readyTypeBit j) = false
        rw [esContains_esRemove_bit]
        simp [hinv j hj2]
      · simp only [applyReadyOp, if_neg hc]
        intro j hj
        by_cases hjk : j = k
        · subst hjk
          simpa using hc
        · have hj2 : (s.slots j).isSome := by
            simpa [hjk] using hj
          exact hinv j hj2

theorem slot_mask_invariant_preserved_witness :
    SlotMaskInv (applyReadyOp ReadyStates.new (ReadyOp.notifyOp 5)) :=
  slot_mask_invariant_preserved.2 ReadyStates.new (ReadyOp.notifyOp 5)
    slot_mask_invariant_preserved.1 fun _ h => ReadyOp.noConfusion h

/-- C3: `notify(events)` treats each of the four event bits independently:
a present bit with an occupied waiter slot takes the slot (its Handle is in
the output and the mask bit is unchanged), a present bit with an empty
waiter slot sets the mask bit (and produces no handle), an absent bit
changes nothing — never both actions for one bit; the number of returned
handles equals the number of present bits whose waiter slot was occupied
and is therefore between 0 and 4. -/
theorem notify_per_bit (s : ReadyStates) (ev : Nat) :
    (s.notify ev).2.length
      = (([0, 1, 2, 3] : List (Fin 4)).countP
          fun i => esContains ev (readyTypeBit i) && (s.slots i).isSome) ∧
    (s.notify ev).2.length ≤ 4 ∧
    (∀ i : Fin 4,
      (esContains ev (readyTypeBit i) = false →
        (s.notify ev).1.slots i = s.slots i ∧
        esContains ((s.notify ev).1.mask) (readyTypeBit i)
          = esContains s.mask (readyTypeBit i)) ∧
      (esContains ev (readyTypeBit i) = true →
        (∀ c, s.slots i = some c →
          (s.notify ev).1.slots i = none ∧
          c ∈ (s.notify ev).2 ∧
          esContains ((s.notify ev).1.mask) (readyTypeBit i)
            = esContains s.mask (readyTypeBit i)) ∧
        (s.slots i = none →
          (s.notify ev).1.slots i = none ∧
          esContains ((s.notify ev).1.mask) (readyTypeBit i) = true))) := by
  have hnd : ([0, 1, 2, 3] : List (Fin 4)).Nodup := by decide
  have hmem : ∀ i : Fin 4, i ∈ ([0, 1, 2, 3] : List (Fin 4)) := by decide
  unfold ReadyStates.notify
  refine ⟨notifyGo_length ev [0, 1, 2, 3] s hnd, ?_, ?_⟩
  · rw [notifyGo_length ev [0, 1, 2, 3] s hnd]
    exact List.countP_le_length _
  · intro i
    refine ⟨fun hab => notifyGo_absent ev i hab [0, 1, 2, 3] s,
      fun hp => ⟨fun c hc => ?_, fun hn => ?_⟩⟩
    · exact notifyGo_take ev i c hp [0, 1, 2, 3] s hnd (hmem i) hc
    · exact notifyGo_latch ev i hp [0, 1, 2, 3] s (hmem i) hn

theorem notify_per_bit_witness :
    esContains 3 (readyTypeBit 0) = true ∧
    (ReadyStates.notify ⟨0, fun j => if j = 0 then some 11 else none⟩ 3).1.slots 0 = none ∧
    (11 : Nat) ∈ (ReadyStates.notify ⟨0, fun j => if j = 0 then some 11 else none⟩ 3).2 := by
  have h := ((notify_per_bit ⟨0, fun j => if j = 0 then some 11 else none⟩ 3).2.2 0).2
    (by decide)
  obtain ⟨h1, h2, -⟩ := h.1 11 (by simp)
  exact ⟨by decide, h1, h2⟩

end Coio
